import Mathlib

/-!
Verification of the mail ingestion and event-extraction pipeline of the
Email-asistent repository (files `event_manager.py` and `email_client.py`).

The Python code is shallowly embedded: each function of the source is
translated to an executable Lean definition over explicit state.  Time
(`datetime.now()`) is passed as an explicit `today` parameter, the MD5
fingerprint of `hashlib` is passed as an explicit function parameter, and
byte-string decoding (`bytes.decode`) is passed as an explicit function
parameter; everything else is translated directly from the source.
-/

namespace EmailAsistent

/-! ### Calendar arithmetic (model of `datetime.date`)

`datetime(year, month, day)` accepts `1 ≤ year ≤ 9999` and a real calendar
day, otherwise it raises `ValueError`.  Dates are compared and subtracted at
day granularity; `toDays` is a strictly monotone day count (civil-from-days
style), so `d1 ≤ d2` in Python is `toDays d1 ≤ toDays d2` and
`(d1 - d2).days` is `(toDays d1 : Int) - toDays d2`. -/

structure PyDate where
  y : Nat
  m : Nat
  d : Nat
deriving DecidableEq, Repr

def isLeap (y : Nat) : Bool :=
  (y % 4 == 0 && y % 100 != 0) || y % 400 == 0

def daysInMonth (y m : Nat) : Nat :=
  if m == 2 then (if isLeap y then 29 else 28)
  else if m == 4 || m == 6 || m == 9 || m == 11 then 30
  else 31

/-- Validity as enforced by the `datetime(year, month, day)` constructor. -/
def pyValidDate (y m d : Nat) : Bool :=
  1 ≤ y && y ≤ 9999 && 1 ≤ m && m ≤ 12 && 1 ≤ d && d ≤ daysInMonth y m

/-- Day count of a civil date (March-based shift; standard civil calendar
formula).  Only differences and comparisons of this count are used. -/
def toDays (dt : PyDate) : Nat :=
  let yy := if dt.m ≤ 2 then dt.y - 1 else dt.y
  let mi := if dt.m ≤ 2 then dt.m + 9 else dt.m - 3
  365 * yy + yy / 4 - yy / 100 + yy / 400 + (153 * mi + 2) / 5 + dt.d

def pad2 (n : Nat) : String :=
  if n < 10 then "0" ++ toString n else toString n

/-- `date.strftime("%Y-%m-%d")` as produced by glibc: month and day are
zero-padded to two digits, the year is printed unpadded. -/
def fmtISO (y m d : Nat) : String :=
  toString y ++ "-" ++ pad2 m ++ "-" ++ pad2 d

/-! ### Python string helpers -/

/-- Word characters for `\b` in the patterns of the source: ASCII letters and
digits, underscore, and Cyrillic letters (the only scripts the patterns and
claims exercise). -/
def isCyr (c : Char) : Bool :=
  0x400 ≤ c.toNat && c.toNat ≤ 0x4FF

def isWordChar (c : Char) : Bool :=
  c.isAlpha || c.isDigit || c == '_' || isCyr c

/-- ASCII whitespace recognized by `\s` and `str.strip()`. -/
def pyIsSpace (c : Char) : Bool :=
  c == ' ' || c == '\t' || c == '\n' || c == '\r' || c.toNat == 11 || c.toNat == 12

/-- `str.lower()` for the scripts exercised here (ASCII and Cyrillic). -/
def lowerChar (c : Char) : Char :=
  if c.isUpper then c.toLower
  else if 0x410 ≤ c.toNat && c.toNat ≤ 0x42F then Char.ofNat (c.toNat + 32)
  else if c.toNat == 0x401 then Char.ofNat 0x451
  else c

def pyLower (s : String) : String :=
  ⟨s.data.map lowerChar⟩

def digitsVal (cs : List Char) : Nat :=
  cs.foldl (fun a c => 10 * a + (c.toNat - 48)) 0

/-- Python's `str <`: lexicographic comparison by code point. -/
def strLtB : List Char → List Char → Bool
  | [], [] => false
  | [], _ :: _ => true
  | _ :: _, [] => false
  | a :: as, b :: bs =>
    if a.toNat < b.toNat then true
    else if b.toNat < a.toNat then false
    else strLtB as bs

def pyStrLt (a b : String) : Bool := strLtB a.data b.data

/-! ### The regex scanner of `extract_dates_from_text`
(`event_manager.py`, lines 47-131)

Each of the six patterns is `\b`-delimited groups of digits separated by
literal separators (or a Russian month name).  `re.finditer` scans left to
right, yields non-overlapping leftmost matches, and greedy `\d{lo,hi}`
groups backtrack from the longest length down. -/

/-- Take exactly `k` leading digit characters: their numeric value
(`int(...)` of the group), the last digit character, and the rest. -/
def takeIfDigits (k : Nat) (cs : List Char) : Option (Nat × Char × List Char) :=
  let pre := cs.take k
  if pre.length == k && pre.all Char.isDigit then
    some (digitsVal pre, pre.getLastD ' ', cs.drop k)
  else none

/-- Greedy `\d{lo,hi}` with backtracking: try `hi, hi-1, ..., lo` digits, the
first length for which the continuation succeeds wins. -/
def tryDigits {α : Type} (lo : Nat) (cs : List Char)
    (cont : Nat → Char → List Char → Option α) : Nat → Option α
  | 0 => none
  | hi + 1 =>
    if hi + 1 < lo then none
    else
      match takeIfDigits (hi + 1) cs with
      | some (v, lc, rest) =>
        match cont v lc rest with
        | some r => some r
        | none => tryDigits lo cs cont hi
      | none => tryDigits lo cs cont hi

/-- `\b` before the first (digit) character of a candidate match: the
previous character must be absent or a non-word character. -/
def prevOkB : Option Char → Bool
  | none => true
  | some c => !isWordChar c

/-- `\b` after the last (digit) character of a match. -/
def boundaryAfter : List Char → Bool
  | [] => true
  | c :: _ => !isWordChar c

/-- One attempt of a numeric pattern
`\b(\d{lo1,hi1}) sep1 (\d{lo2,hi2}) sep2 (\d{lo3,hi3})\b`
at the current position. -/
def matchNumAt (lo1 hi1 lo2 hi2 lo3 hi3 : Nat) (sep1 sep2 : Char → Bool)
    (pOk : Bool) (cs : List Char) : Option ((Nat × Nat × Nat) × Char × List Char) :=
  if !pOk then none
  else
    tryDigits lo1 cs (fun v1 _ cs1 =>
      match cs1 with
      | [] => none
      | c1 :: cs2 =>
        if sep1 c1 then
          tryDigits lo2 cs2 (fun v2 _ cs3 =>
            match cs3 with
            | [] => none
            | c2 :: cs4 =>
              if sep2 c2 then
                tryDigits lo3 cs4 (fun v3 lc cs5 =>
                  if boundaryAfter cs5 then some ((v1, v2, v3), lc, cs5) else none) hi3
              else none) hi2
        else none) hi1

/-- Month-name alternation: Python tries the alternatives in source order,
retrying the next alternative if the rest of the pattern fails.  The numeric
month value is the `month_names` dictionary entry of the matched name (the
dictionary contains exactly the alternation's names). -/
def monthFullNames : List (String × Nat) :=
  [("января", 1), ("февраля", 2), ("марта", 3), ("апреля", 4), ("мая", 5),
   ("июня", 6), ("июля", 7), ("августа", 8), ("сентября", 9), ("октября", 10),
   ("ноября", 11), ("декабря", 12)]

def monthAbbrNames : List (String × Nat) :=
  [("янв", 1), ("фев", 2), ("мар", 3), ("апр", 4), ("май", 5), ("июн", 6),
   ("июл", 7), ("авг", 8), ("сен", 9), ("окт", 10), ("ноя", 11), ("дек", 12)]

def tryAlts {α : Type} (alts : List (String × Nat)) (cs : List Char)
    (cont : Nat → List Char → Option α) : Option α :=
  match alts with
  | [] => none
  | (nm, v) :: rest =>
    match (if nm.data.isPrefixOf cs then cont v (cs.drop nm.data.length) else none) with
    | some r => some r
    | none => tryAlts rest cs cont

/-- `\s+` (greedy; the following pattern element never starts with
whitespace, so the maximal run is the only candidate). -/
def takeWs1 : List Char → Option (List Char)
  | [] => none
  | c :: rest => if pyIsSpace c then some (rest.dropWhile pyIsSpace) else none

/-- `[\.]?` — greedy optional dot with backtracking. -/
def tryOptDot {α : Type} (withDot : Bool) (cs : List Char)
    (cont : List Char → Option α) : Option α :=
  if withDot then
    match cs with
    | '.' :: rest =>
      match cont rest with
      | some r => some r
      | none => cont cs
    | _ => cont cs
  else cont cs

/-- One attempt of `\b(\d{1,2})\s+(name-alternation)[\.]?\s+(\d{4})\b`
(the `[\.]?` only for the abbreviated-name pattern). -/
def matchMonthAt (alts : List (String × Nat)) (withDot : Bool)
    (pOk : Bool) (cs : List Char) : Option ((Nat × Nat × Nat) × Char × List Char) :=
  if !pOk then none
  else
    tryDigits 1 cs (fun d _ cs1 =>
      match takeWs1 cs1 with
      | none => none
      | some cs2 =>
        tryAlts alts cs2 (fun mv cs3 =>
          tryOptDot withDot cs3 (fun cs4 =>
            match takeWs1 cs4 with
            | none => none
            | some cs5 =>
              tryDigits 4 cs5 (fun yv lc cs6 =>
                if boundaryAfter cs6 then some ((d, mv, yv), lc, cs6) else none) 4))) 2

/-- The six patterns of `extract_dates_from_text`, in source order. -/
inductive DPat where
  | dotP | slashP | isoP | monthFull | monthAbbr | flexP
deriving DecidableEq, Repr

def isDotSlash (c : Char) : Bool := c == '.' || c == '/'

def matchAt : DPat → Bool → List Char → Option ((Nat × Nat × Nat) × Char × List Char)
  | .dotP, p, cs => matchNumAt 1 2 1 2 4 4 (· == '.') (· == '.') p cs
  | .slashP, p, cs => matchNumAt 1 2 1 2 4 4 (· == '/') (· == '/') p cs
  | .isoP, p, cs => matchNumAt 4 4 1 2 1 2 (· == '-') (· == '-') p cs
  | .monthFull, p, cs => matchMonthAt monthFullNames false p cs
  | .monthAbbr, p, cs => matchMonthAt monthAbbrNames true p cs
  | .flexP, p, cs => matchNumAt 1 2 1 2 2 4 isDotSlash isDotSlash p cs

/-- `re.finditer`: scan left to right; on a match continue after it,
otherwise advance one character.  Every match consumes at least one
character, so the list length bounds the number of steps. -/
def finditerAux (pat : DPat) : Nat → Option Char → List Char → List (Nat × Nat × Nat)
  | 0, _, _ => []
  | _ + 1, _, [] => []
  | f + 1, prev, c :: rest =>
    match matchAt pat (prevOkB prev) (c :: rest) with
    | some (g, lc, rest2) => g :: finditerAux pat f (some lc) rest2
    | none => finditerAux pat f (some c) rest

def finditer (pat : DPat) (cs : List Char) : List (Nat × Nat × Nat) :=
  finditerAux pat cs.length none cs

/-- Two-digit year correction (`event_manager.py` lines 116-118). -/
def yearFix (y : Nat) : Nat :=
  if y < 100 then (if y < 50 then 2000 + y else 1900 + y) else y

/-- `datetime(year, month, day)` then `strftime("%Y-%m-%d")`; `none` models
the `ValueError` that the source catches and skips. -/
def mkDateStr (y m d : Nat) : Option String :=
  if pyValidDate y m d then some (fmtISO y m d) else none

/-- The per-match processing of lines 91-126: group order depends on the
pattern, and the two-digit year correction applies only to the numeric
non-ISO patterns. -/
def processTriple : DPat → (Nat × Nat × Nat) → Option String
  | .isoP, (y, m, d) => mkDateStr y m d
  | .monthFull, (d, m, y) => mkDateStr y m d
  | .monthAbbr, (d, m, y) => mkDateStr y m d
  | .dotP, (d, m, y) => mkDateStr (yearFix y) m d
  | .slashP, (d, m, y) => mkDateStr (yearFix y) m d
  | .flexP, (d, m, y) => mkDateStr (yearFix y) m d

def allDatePats : List DPat :=
  [.dotP, .slashP, .isoP, .monthFull, .monthAbbr, .flexP]

/-- The raw stream of normalized dates in scan order (patterns in source
order, matches of each pattern left to right), before deduplication. -/
def scanDates (text : String) : List String :=
  let cs := (pyLower text).data
  allDatePats.flatMap (fun p => (finditer p cs).filterMap (processTriple p))

/-- `if date_str not in dates: dates.append(date_str)`. -/
def dedupStep (acc : List String) (s : String) : List String :=
  if s ∈ acc then acc else acc ++ [s]

def dedupFirst (l : List String) : List String :=
  l.foldl dedupStep []

/-- `EventManager.extract_dates_from_text` (lines 47-131). -/
def extract_dates_from_text (text : String) : List String :=
  let cs := (pyLower text).data
  allDatePats.foldl (fun dates p =>
    (finditer p cs).foldl (fun dates g =>
      match processTriple p g with
      | some s => dedupStep dates s
      | none => dates) dates) []

/-! ### `datetime.strptime` for the formats used by the store

CPython's `_strptime` compiles `%Y` to exactly four digits, `%d`/`%m` to one
or two digits with value ranges 1-31 / 1-12 (no `00`), `%H`/`%M`/`%S` to one
or two digits with ranges 0-23 / 0-59 / 0-61, literal separators to
themselves and a literal space to a whitespace run; the whole string must be
consumed, and the `datetime` constructor then validates the calendar day
(and seconds ≤ 59). -/

/-- Python's `str.split(sep)` for a one-character separator (empty segments
are kept; the empty string gives `[""]`). -/
def splitOnChar (sep : Char) : List Char → List (List Char)
  | [] => [[]]
  | c :: rest =>
    match splitOnChar sep rest with
    | [] => [[]]
    | g :: gs => if c == sep then [] :: g :: gs else (c :: g) :: gs

def isDigits (cs : List Char) : Bool :=
  !cs.isEmpty && cs.all Char.isDigit

/-- `datetime.strptime(s, "%Y-%m-%d").date()`. -/
def strptimeISO (s : String) : Option PyDate :=
  match splitOnChar '-' s.data with
  | [ys, ms, ds] =>
    if isDigits ys && ys.length == 4 && isDigits ms && ms.length ≤ 2 &&
        isDigits ds && ds.length ≤ 2 &&
        pyValidDate (digitsVal ys) (digitsVal ms) (digitsVal ds) then
      some ⟨digitsVal ys, digitsVal ms, digitsVal ds⟩
    else none
  | _ => none

/-- `datetime.strptime(s, "%d<sep>%m<sep>%Y").date()`. -/
def strptimeDMY (sep : Char) (s : String) : Option PyDate :=
  match splitOnChar sep s.data with
  | [ds, ms, ys] =>
    if isDigits ds && ds.length ≤ 2 && isDigits ms && ms.length ≤ 2 &&
        isDigits ys && ys.length == 4 &&
        pyValidDate (digitsVal ys) (digitsVal ms) (digitsVal ds) then
      some ⟨digitsVal ys, digitsVal ms, digitsVal ds⟩
    else none
  | _ => none

/-- `datetime.strptime(s, "%Y-%m-%d %H:%M:%S").date()` (the literal space
matches a whitespace run; the time of day is validated and discarded). -/
def strptimeISOdt (s : String) : Option PyDate :=
  let cs := s.data
  let pre := cs.takeWhile (fun c => !pyIsSpace c)
  let rest := cs.dropWhile (fun c => !pyIsSpace c)
  match rest with
  | [] => none
  | _ :: _ =>
    let post := rest.dropWhile pyIsSpace
    if post.isEmpty || post.any pyIsSpace then none
    else
      match strptimeISO ⟨pre⟩ with
      | none => none
      | some dt =>
        match splitOnChar ':' post with
        | [hs, mins, secs] =>
          if isDigits hs && hs.length ≤ 2 && digitsVal hs ≤ 23 &&
              isDigits mins && mins.length ≤ 2 && digitsVal mins ≤ 59 &&
              isDigits secs && secs.length ≤ 2 && digitsVal secs ≤ 59 then
            some dt
          else none
        | _ => none

/-- The format chain `("%Y-%m-%d", "%d.%m.%Y", "%d/%m/%Y")` used by
`get_events_for_reminder` and `clear_old_events`. -/
def parse3 (s : String) : Option PyDate :=
  strptimeISO s <|> strptimeDMY '.' s <|> strptimeDMY '/' s

/-- The format chain of `get_upcoming_events`, which additionally tries
`"%Y-%m-%d %H:%M:%S"`. -/
def parse4 (s : String) : Option PyDate :=
  strptimeISO s <|> strptimeDMY '.' s <|> strptimeDMY '/' s <|> strptimeISOdt s

/-! ### The event store (`EventManager`)

`self.events : Dict[int, List[Dict]]` is modelled as an insertion-ordered
association list (Python dicts preserve insertion order; assignment to a
fresh key appends).  An event dict is modelled by the fields the manager
reads and writes; `date`/`original_date` are `Option` because the code reads
them with `dict.get` defaults. -/

structure PyEvent where
  id : String
  title : String
  date : Option String
  original_date : Option String
  created_at : String
  reminder_sent : Bool
  email_preview : String
  days_left : Option Int
deriving DecidableEq, Repr

abbrev Store := List (Int × List PyEvent)

def lookupStore (uid : Int) : Store → Option (List PyEvent)
  | [] => none
  | (k, evs) :: rest => if k == uid then some evs else lookupStore uid rest

def setStore (uid : Int) (evs : List PyEvent) : Store → Store
  | [] => [(uid, evs)]
  | (k, old) :: rest =>
    if k == uid then (k, evs) :: rest else (k, old) :: setStore uid evs rest

/-- `event.get("date", event.get("original_date", ""))`. -/
def dateStrOf (e : PyEvent) : String :=
  match e.date with
  | some s => s
  | none => e.original_date.getD ""

/-- `hashlib.md5(f"{user_id}_{email_subject}_{date}".encode()).hexdigest()[:10]`;
the MD5 hex digest itself is the explicit parameter `md5`. -/
def fingerprint (md5 : String → String) (uid : Int) (subj d : String) : String :=
  (md5 (toString uid ++ "_" ++ subj ++ "_" ++ d)).take 10

/-- The event dict built by `add_event_from_email` (lines 148-156). -/
def mkEvent (md5 : String → String) (now : String) (uid : Int)
    (subj body d : String) : PyEvent :=
  { id := fingerprint md5 uid subj d
    title := subj.take 100
    date := some d
    original_date := some d
    created_at := now
    reminder_sent := false
    email_preview := body.take 200
    days_left := none }

/-- `if user_id not in self.events: self.events[user_id] = []` (lines
159-160). -/
def ensureUser (uid : Int) (st : Store) : Store :=
  match lookupStore uid st with
  | none => setStore uid [] st
  | some _ => st

/-- One iteration of the `for date in dates` loop of `add_event_from_email`:
ensure the user's list exists, then append the event only when its id
(`fingerprint`, which is `(mkEvent …).id`) is not among the existing ids. -/
def addEventStep (md5 : String → String) (now : String) (uid : Int)
    (subj body : String) (acc : List PyEvent × Store) (d : String) :
    List PyEvent × Store :=
  if ((lookupStore uid (ensureUser uid acc.2)).getD []).any
      (fun e => e.id == fingerprint md5 uid subj d) then
    (acc.1, ensureUser uid acc.2)
  else
    (acc.1 ++ [mkEvent md5 now uid subj body d],
     setStore uid (((lookupStore uid (ensureUser uid acc.2)).getD [])
        ++ [mkEvent md5 now uid subj body d]) (ensureUser uid acc.2))

/-- `EventManager.add_event_from_email` (lines 133-174), returning the list
of newly added events and the updated store. -/
def add_event_from_email (md5 : String → String) (now : String) (uid : Int)
    (subj body : String) (st : Store) : List PyEvent × Store :=
  (extract_dates_from_text (subj ++ " " ++ body)).foldl
    (addEventStep md5 now uid subj body) ([], st)

/-- The per-event filter of `get_upcoming_events` (lines 185-209): parse the
date with the four-format chain, keep it when
`today <= event_date <= today + timedelta(days=days)`, and record
`days_left = (event_date - today).days`. -/
def upcomingFilter (today : PyDate) (days : Nat) (evs : List PyEvent) : List PyEvent :=
  evs.filterMap (fun e =>
    if dateStrOf e == "" then none
    else
      (parse4 (dateStrOf e)).bind (fun dt =>
        if toDays today ≤ toDays dt ∧ toDays dt ≤ toDays today + days then
          some { e with days_left := some ((toDays dt : Int) - (toDays today : Int)) }
        else none))

/-- `upcoming.sort(key=lambda x: x.get("date", ""))`: Python's stable sort
ordered by the raw date string; modelled as stable insertion sort (an
element is inserted after all elements whose key is ≤ its key). -/
def insertByKey (key : PyEvent → String) (x : PyEvent) : List PyEvent → List PyEvent
  | [] => [x]
  | y :: ys =>
    if pyStrLt (key x) (key y) then x :: y :: ys else y :: insertByKey key x ys

def sortByKey (key : PyEvent → String) (l : List PyEvent) : List PyEvent :=
  l.foldl (fun acc x => insertByKey key x acc) []

def upKey (e : PyEvent) : String := e.date.getD ""

/-- `EventManager.get_upcoming_events` (lines 176-213): an absent user gives
`[]`, otherwise the window-filtered events sorted by the raw date string. -/
def get_upcoming_events (today : PyDate) (uid : Int) (days : Nat) (st : Store) :
    List PyEvent :=
  ((lookupStore uid st).map
    (fun evs => sortByKey upKey (upcomingFilter today days evs))).getD []

/-- The per-event test of `get_events_for_reminder` (lines 221-249): skip
events already reminded, parse with the three-format chain, and keep the
triple when `days_until in [1, 3, 7] and days_until >= 0`. -/
def reminderOf (today : PyDate) (uid : Int) (e : PyEvent) :
    Option (Int × PyEvent × Int) :=
  if e.reminder_sent then none
  else if dateStrOf e == "" then none
  else
    (parse3 (dateStrOf e)).bind (fun dt =>
      if ((toDays dt : Int) - (toDays today : Int) = 1 ∨
          (toDays dt : Int) - (toDays today : Int) = 3 ∨
          (toDays dt : Int) - (toDays today : Int) = 7) ∧
          (0 : Int) ≤ (toDays dt : Int) - (toDays today : Int) then
        some (uid, e, (toDays dt : Int) - (toDays today : Int))
      else none)

/-- `EventManager.get_events_for_reminder` (lines 215-251). -/
def get_events_for_reminder (today : PyDate) (st : Store) :
    List (Int × PyEvent × Int) :=
  st.flatMap (fun p => p.2.filterMap (reminderOf today p.1))

/-- The loop of `mark_reminder_sent`: flip `reminder_sent` on the first
event with the given id (the loop `break`s after the first hit). -/
def markFirst (eid : String) : List PyEvent → List PyEvent
  | [] => []
  | e :: es =>
    if e.id == eid then { e with reminder_sent := true } :: es
    else e :: markFirst eid es

/-- `EventManager.mark_reminder_sent` (lines 253-261): when the user is
present, rewrite their list with the first matching event flipped; an absent
user leaves the store unchanged. -/
def mark_reminder_sent (uid : Int) (eid : String) (st : Store) : Store :=
  ((lookupStore uid st).map (fun evs => setStore uid (markFirst eid evs) st)).getD st

/-- The retention test of `clear_old_events` (lines 286-306): empty date
strings are kept, unparseable ones are removed, parsed dates are kept when
`event_date >= cutoff_date`.  `cut` is `toDays` of the cutoff date. -/
def keepEvent (cut : Int) (e : PyEvent) : Bool :=
  if dateStrOf e == "" then true
  else ((parse3 (dateStrOf e)).map
    (fun dt => decide (cut ≤ (toDays dt : Int)))).getD false

/-- `EventManager.clear_old_events` (lines 279-315):
`cutoff_date = datetime.now().date() - timedelta(days=days)` (in day-count
space, `toDays today - days`), and a user whose filtered list is empty is
deleted from the dict. -/
def clear_old_events (today : PyDate) (days : Nat) : Store → Store
  | [] => []
  | (k, evs) :: rest =>
    if (evs.filter (keepEvent ((toDays today : Int) - (days : Int)))).isEmpty
    then clear_old_events today days rest
    else (k, evs.filter (keepEvent ((toDays today : Int) - (days : Int))))
      :: clear_old_events today days rest

/-! ### The mail client (`EmailClient`, `email_client.py`)

Byte strings are modelled as `List Nat`; `bytes.decode("utf-8",
errors="ignore")` is the explicit parameter `u` of the functions that use
it.  A MIME part carries the fields the body loop reads: content type,
`str(part.get("Content-Disposition"))` (the string `"None"` when the header
is absent), and `get_payload(decode=True)` (`none` when the payload is
`None`). -/

/-- `event["id"] in [e["id"] for e in self.events[user_id]]` for a user that
may be absent from the store. -/
def hasId (uid : Int) (i : String) (st : Store) : Bool :=
  ((lookupStore uid st).getD []).any (fun e => e.id == i)

structure MsgPart where
  ctype : String
  cdisp : String
  payload : Option (List Nat)
deriving DecidableEq, Repr

/-- `str.startswith`. -/
def pyStartsWith (pre s : String) : Bool :=
  pre.data.isPrefixOf s.data

/-- Python's `in` on strings: substring test. -/
def substrB (needle hay : String) : Bool :=
  (List.range (hay.data.length + 1)).any
    (fun i => needle.data.isPrefixOf (hay.data.drop i))

/-- Scan for the `>` closing a tag, requiring at least one `[^>]` character
before it (the regex `<[^>]+>`); returns the characters after the `>`. -/
def findGtAux : List Char → Option (List Char)
  | [] => none
  | '>' :: r => some r
  | _ :: r => findGtAux r

def findGt : List Char → Option (List Char)
  | [] => none
  | '>' :: _ => none
  | _ :: r => findGtAux r

/-- `re.sub(r"<[^>]+>", " ", html)`: leftmost non-overlapping tag
occurrences replaced by one space (fuel is the input length; every step
consumes at least one character). -/
def stripTagsF : Nat → List Char → List Char
  | 0, cs => cs
  | _ + 1, [] => []
  | f + 1, c :: rest =>
    if c == '<' then
      match findGt rest with
      | some rest2 => ' ' :: stripTagsF f rest2
      | none => c :: stripTagsF f rest
    else c :: stripTagsF f rest

/-- `str.replace`: non-overlapping left-to-right replacement. -/
def replaceAllF (pat rep : List Char) : Nat → List Char → List Char
  | 0, cs => cs
  | _ + 1, [] => []
  | f + 1, c :: rest =>
    if pat.isPrefixOf (c :: rest) then
      rep ++ replaceAllF pat rep f ((c :: rest).drop pat.length)
    else c :: replaceAllF pat rep f rest

/-- `re.sub(r"\s+", " ", text)`: collapse each whitespace run to one
space. -/
def collapseWsF : Nat → List Char → List Char
  | 0, cs => cs
  | _ + 1, [] => []
  | f + 1, c :: rest =>
    if pyIsSpace c then ' ' :: collapseWsF f (rest.dropWhile pyIsSpace)
    else c :: collapseWsF f rest

/-- `str.strip()`. -/
def pyStrip (cs : List Char) : List Char :=
  ((cs.dropWhile pyIsSpace).reverse.dropWhile pyIsSpace).reverse

/-- `EmailClient._html_to_text` (lines 241-259): strip tags, decode the four
entities in source order, collapse whitespace, strip. -/
def htmlToText (html : String) : String :=
  let t1 := stripTagsF html.data.length html.data
  let t2 := replaceAllF "&nbsp;".data " ".data t1.length t1
  let t3 := replaceAllF "&amp;".data "&".data t2.length t2
  let t4 := replaceAllF "&lt;".data "<".data t3.length t3
  let t5 := replaceAllF "&gt;".data ">".data t4.length t4
  ⟨pyStrip (collapseWsF t5.length t5)⟩

/-- One iteration of the `msg.walk()` loop of
`_get_email_body_and_attachments` (lines 160-191), restricted to its effect
on `body` (attachment collection touches neither `body` nor the control flow
beyond the `continue`). -/
def bodyStep (u : List Nat → String) (body : String) (p : MsgPart) : String :=
  if pyStartsWith "multipart/" p.ctype then body
  else if substrB "attachment" p.cdisp || substrB "filename" p.cdisp then body
  else if p.ctype == "text/plain" && body == "" then
    match p.payload with
    | some bs => if bs.isEmpty then body else u bs
    | none => body
  else if p.ctype == "text/html" && body == "" then
    match p.payload with
    | some bs => if bs.isEmpty then body else htmlToText (u bs)
    | none => body
  else body

/-- The body computed by `_get_email_body_and_attachments` for a multipart
message whose `walk()` yields `parts` (the message's own `multipart/...`
node included; it is skipped by the first branch). -/
def get_body_multipart (u : List Nat → String) (parts : List MsgPart) : String :=
  parts.foldl (bodyStep u) ""

/-- Lossy UTF-8 decoding restricted to byte values below 128, on which UTF-8
agrees with ASCII and `errors="ignore"` drops nothing that a stray high byte
would not drop; used to instantiate the decoder parameter `u` on concrete
inputs. -/
def asciiLossy (bs : List Nat) : String :=
  ⟨(bs.filter (· < 128)).map Char.ofNat⟩

/-- ASCII bytes of a string, for building concrete payloads. -/
def strBytes (s : String) : List Nat :=
  s.data.map Char.toNat

/-- Python's `l[-limit:]`: for `limit = 0` the index `-0` is `0` and the
slice is the whole list. -/
def pyLastSlice {α : Type} (limit : Nat) (l : List α) : List α :=
  if limit == 0 then l else l.drop (l.length - limit)

/-- `EmailClient.get_unread_emails` (lines 42-64) after a successful UNSEEN
search: `for email_id in email_ids[-limit:][::-1]` fetching each id and
keeping the successful fetches.  `fetch` is `_fetch_email`; `ids` is the
mailbox-order search result. -/
def get_unread_emails {α β : Type} (fetch : α → Option β) (limit : Nat)
    (ids : List α) : List β :=
  ((pyLastSlice limit ids).reverse).filterMap fetch

/-- `sep.join(parts)`. -/
def pyJoin (sep : String) : List String → String
  | [] => ""
  | [x] => x
  | x :: xs => x ++ sep ++ pyJoin sep xs

/-- A fragment returned by `email.header.decode_header`: either raw bytes
with an optional declared charset, or an already-decoded string. -/
inductive HFrag where
  | bpart (bs : List Nat) (enc : Option String)
  | spart (s : String)
deriving DecidableEq, Repr

/-- The fragment loop of `_decode_header` (lines 142-149): bytes with a
declared charset go through `part.decode(encoding)` — whose failure
(`decEnc … = none`, modelling the raised `UnicodeDecodeError`/`LookupError`)
aborts the whole loop (`none`) — bytes without a charset go through lossy
UTF-8 (`u`), and string fragments pass through. -/
def decodeFragsOpt (decEnc : List Nat → String → Option String)
    (u : List Nat → String) : List HFrag → Option (List String)
  | [] => some []
  | .bpart bs (some e) :: rest =>
    (decEnc bs e).bind (fun s => (decodeFragsOpt decEnc u rest).map (fun ps => s :: ps))
  | .bpart bs none :: rest =>
    (decodeFragsOpt decEnc u rest).map (fun ps => u bs :: ps)
  | .spart s :: rest =>
    (decodeFragsOpt decEnc u rest).map (fun ps => s :: ps)

/-- `EmailClient._decode_header` (lines 135-152): empty or absent headers
give `""`; otherwise the decoded fragments are joined with `" ".join`, and
any exception in the loop (`decodeFragsOpt … = none`) is caught by the bare
`except:`, which returns `str(header)`, i.e. the raw header.  `frags` is
what `decode_header(header)` returned for the raw header. -/
def decode_header_fn (decEnc : List Nat → String → Option String)
    (u : List Nat → String) (header : Option String) (frags : List HFrag) : String :=
  match header with
  | none => ""
  | some h =>
    if h == "" then ""
    else ((decodeFragsOpt decEnc u frags).map (fun parts => pyJoin " " parts)).getD h

/-- The per-fragment decoding in the success case, for stating what the join
contains. -/
def fragDec (decEnc : List Nat → String → Option String)
    (u : List Nat → String) : HFrag → String
  | .bpart bs (some e) => (decEnc bs e).getD ""
  | .bpart bs none => u bs
  | .spart s => s

/-! ## Verified properties -/

/-! ### Deduplication structure of the extractor -/

theorem foldl_proc_eq_filterMap (p : DPat) :
    ∀ (l : List (Nat × Nat × Nat)) (acc : List String),
    l.foldl (fun dates g =>
      match processTriple p g with
      | some s => dedupStep dates s
      | none => dates) acc
      = (l.filterMap (processTriple p)).foldl dedupStep acc := by
  intro l
  induction l with
  | nil => intro acc; rfl
  | cons g gs ih =>
    intro acc
    simp only [List.foldl_cons, List.filterMap_cons]
    cases h : processTriple p g with
    | none => simp only [h]; exact ih acc
    | some s => simp only [h, List.foldl_cons]; exact ih (dedupStep acc s)

theorem extract_eq_core :
    ∀ (pats : List DPat) (cs : List Char) (acc : List String),
    pats.foldl (fun dates p2 =>
      (finditer p2 cs).foldl (fun dates g =>
        match processTriple p2 g with
        | some s => dedupStep dates s
        | none => dates) dates) acc
      = (pats.flatMap (fun p2 => (finditer p2 cs).filterMap (processTriple p2))).foldl
          dedupStep acc := by
  intro pats
  induction pats with
  | nil => intro cs acc; rfl
  | cons p ps ih =>
    intro cs acc
    simp only [List.foldl_cons, List.flatMap_cons, List.foldl_append]
    rw [foldl_proc_eq_filterMap]
    exact ih cs _

theorem extract_eq_dedup (text : String) :
    extract_dates_from_text text = dedupFirst (scanDates text) := by
  unfold extract_dates_from_text scanDates dedupFirst
  exact extract_eq_core allDatePats (pyLower text).data []

theorem mem_foldl_dedupStep :
    ∀ (l acc : List String) (x : String),
    x ∈ l.foldl dedupStep acc ↔ x ∈ acc ∨ x ∈ l := by
  intro l
  induction l with
  | nil => intro acc x; simp
  | cons s ss ih =>
    intro acc x
    rw [List.foldl_cons, ih]
    unfold dedupStep
    by_cases h : s ∈ acc
    · rw [if_pos h]
      simp only [List.mem_cons]
      constructor
      · rintro (hx | hx)
        · exact Or.inl hx
        · exact Or.inr (Or.inr hx)
      · rintro (hx | hx | hx)
        · exact Or.inl hx
        · exact Or.inl (hx ▸ h)
        · exact Or.inr hx
    · rw [if_neg h]
      simp only [List.mem_append, List.mem_singleton, List.mem_cons]
      tauto

theorem nodup_foldl_dedupStep :
    ∀ (l acc : List String), acc.Nodup → (l.foldl dedupStep acc).Nodup := by
  intro l
  induction l with
  | nil => intro acc h; exact h
  | cons s ss ih =>
    intro acc h
    rw [List.foldl_cons]
    apply ih
    unfold dedupStep
    by_cases hm : s ∈ acc
    · rwa [if_pos hm]
    · rw [if_neg hm, List.nodup_append]
      refine ⟨h, List.nodup_singleton s, ?_⟩
      intro a ha has
      rw [List.mem_singleton] at has
      exact hm (has ▸ ha)

/-- Claim C3 (amended).  `extract_dates_from_text` is exactly the
first-occurrence deduplication of the raw scan stream `scanDates` (patterns
tried in the fixed source order, matches of each pattern left to right), so
its result is duplicate-free and contains each scanned normalized date
exactly once, in order of first sighting *by the scanner*.  (The original
claim's first-seen-in-the-text order fails; see the counterexample.) -/
theorem claim_C3_amended (text : String) :
    extract_dates_from_text text = dedupFirst (scanDates text)
    ∧ (extract_dates_from_text text).Nodup
    ∧ ∀ s : String, (extract_dates_from_text text).count s
        = if s ∈ scanDates text then 1 else 0 := by
  have hd := extract_eq_dedup text
  have hnd : (extract_dates_from_text text).Nodup := by
    rw [hd]
    exact nodup_foldl_dedupStep _ [] List.nodup_nil
  refine ⟨hd, hnd, ?_⟩
  intro s
  by_cases hm : s ∈ scanDates text
  · rw [if_pos hm]
    apply List.count_eq_one_of_mem hnd
    rw [hd]
    unfold dedupFirst
    rw [mem_foldl_dedupStep]
    exact Or.inr hm
  · rw [if_neg hm, List.count_eq_zero]
    intro hc
    rw [hd] at hc
    unfold dedupFirst at hc
    rw [mem_foldl_dedupStep] at hc
    rcases hc with h | h
    · exact absurd h (List.not_mem_nil s)
    · exact hm h

/-- Claim C3, counterexample to the stated output order.  In the text
`"2024-01-05 10.02.2024"` the date `2024-01-05` occurs first, yet the
extractor returns it second, because the `DD.MM.YYYY` pattern is scanned
before the `YYYY-MM-DD` pattern; first-seen-in-the-text order does not
hold. -/
theorem claim_C3_counterexample :
    extract_dates_from_text "2024-01-05 10.02.2024"
      = ["2024-02-10", "2024-01-05"]
    ∧ (["2024-02-10", "2024-01-05"] : List String)
      ≠ ["2024-01-05", "2024-02-10"] := by
  exact ⟨by decide, by decide⟩

/-- Claim C7 (confirmed).  A pattern match whose field values do not form a
valid calendar date is silently dropped: `"31.02.2024"` yields no extracted
date and no event (for any store, user, hash and clock), and the per-match
conversion returns `none` — not an error — on every invalid triple. -/
theorem claim_C7_invalid_dates_dropped (md5 : String → String) (now : String)
    (uid : Int) (st : Store) :
    extract_dates_from_text "31.02.2024" = []
    ∧ add_event_from_email md5 now uid "31.02.2024" "" st = ([], st)
    ∧ ∀ y m d : Nat, pyValidDate y m d = false → mkDateStr y m d = none := by
  refine ⟨by decide, ?_, ?_⟩
  · show (extract_dates_from_text ("31.02.2024" ++ " " ++ "")).foldl
      (addEventStep md5 now uid "31.02.2024" "") ([], st) = ([], st)
    have h : extract_dates_from_text ("31.02.2024" ++ " " ++ "") = [] := by decide
    rw [h, List.foldl_nil]
  · intro y m d h
    unfold mkDateStr
    rw [h]
    rfl

theorem claim_C7_witness :
    pyValidDate 2024 2 31 = false
    ∧ mkDateStr 2024 2 31 = none
    ∧ extract_dates_from_text "31.02.2024" = [] := by
  refine ⟨by decide, ?_, (claim_C7_invalid_dates_dropped id "" 0 []).1⟩
  exact (claim_C7_invalid_dates_dropped id "" 0 []).2.2 2024 2 31 (by decide)

/-- Claim C8 (confirmed).  For a matched two-digit year `y` the extractor
expands `y < 50` to `2000 + y` and `50 ≤ y < 100` to `1900 + y`; in
particular `"01.01.15"` normalizes to 2015 and `"05.05.72"` to 1972. -/
theorem claim_C8_two_digit_years :
    (∀ y : Nat, y < 50 → yearFix y = 2000 + y)
    ∧ (∀ y : Nat, 50 ≤ y → y < 100 → yearFix y = 1900 + y)
    ∧ extract_dates_from_text "01.01.15" = ["2015-01-01"]
    ∧ extract_dates_from_text "05.05.72" = ["1972-05-05"] := by
  refine ⟨?_, ?_, by decide, by decide⟩
  · intro y h
    unfold yearFix
    rw [if_pos (Nat.lt_of_lt_of_le h (by norm_num)), if_pos h]
  · intro y h1 h2
    unfold yearFix
    rw [if_pos h2, if_neg (Nat.not_lt.mpr h1)]

theorem claim_C8_witness :
    yearFix 15 = 2000 + 15 ∧ yearFix 72 = 1900 + 72 := by
  exact ⟨(claim_C8_two_digit_years).1 15 (by decide),
         (claim_C8_two_digit_years).2.1 72 (by decide) (by decide)⟩

/-! ### Store plumbing lemmas -/

theorem lookup_setStore_self (uid : Int) (evs : List PyEvent) :
    ∀ st : Store, lookupStore uid (setStore uid evs st) = some evs := by
  intro st
  induction st with
  | nil => simp [setStore, lookupStore]
  | cons p rest ih =>
    obtain ⟨k, old⟩ := p
    unfold setStore
    by_cases h : k == uid
    · rw [if_pos h]
      unfold lookupStore
      rw [if_pos h]
    · rw [if_neg h]
      unfold lookupStore
      rw [if_neg h]
      exact ih

theorem lookup_ensureUser (uid : Int) (st : Store) :
    lookupStore uid (ensureUser uid st) = some ((lookupStore uid st).getD []) := by
  unfold ensureUser
  cases h : lookupStore uid st with
  | none => simp [lookup_setStore_self]
  | some evs => simp [h]

theorem hasId_ensureUser (uid : Int) (i : String) (st : Store) :
    hasId uid i (ensureUser uid st) = hasId uid i st := by
  unfold hasId
  rw [lookup_ensureUser]
  rfl

/-! ### Idempotence of `add_event_from_email` -/

theorem step_hasId_self (md5 : String → String) (now : String) (uid : Int)
    (subj body d : String) (acc : List PyEvent × Store) :
    hasId uid (fingerprint md5 uid subj d)
      (addEventStep md5 now uid subj body acc d).2 = true := by
  unfold addEventStep
  by_cases h : (((lookupStore uid (ensureUser uid acc.2)).getD []).any
      (fun e => e.id == fingerprint md5 uid subj d))
  · rw [if_pos h]
    unfold hasId
    rw [lookup_ensureUser]
    rw [lookup_ensureUser] at h
    exact h
  · rw [if_neg h]
    unfold hasId
    rw [lookup_setStore_self]
    simp [mkEvent, List.any_append]

theorem step_hasId_mono (md5 : String → String) (now : String) (uid : Int)
    (subj body d : String) (acc : List PyEvent × Store) (i : String) :
    hasId uid i acc.2 = true →
    hasId uid i (addEventStep md5 now uid subj body acc d).2 = true := by
  intro hi
  unfold addEventStep
  by_cases h : (((lookupStore uid (ensureUser uid acc.2)).getD []).any
      (fun e => e.id == fingerprint md5 uid subj d))
  · rw [if_pos h]
    rw [hasId_ensureUser]
    exact hi
  · rw [if_neg h]
    unfold hasId at hi ⊢
    rw [lookup_setStore_self, lookup_ensureUser]
    simp only [Option.getD_some, List.any_append, Bool.or_eq_true]
    left
    simpa using hi

theorem fold_hasId_mono (md5 : String → String) (now : String) (uid : Int)
    (subj body : String) (i : String) :
    ∀ (dates : List String) (acc : List PyEvent × Store),
    hasId uid i acc.2 = true →
    hasId uid i ((dates.foldl (addEventStep md5 now uid subj body) acc)).2 = true := by
  intro dates
  induction dates with
  | nil => intro acc h; exact h
  | cons d ds ih =>
    intro acc h
    rw [List.foldl_cons]
    exact ih _ (step_hasId_mono md5 now uid subj body d acc i h)

theorem fold_hasId_all (md5 : String → String) (now : String) (uid : Int)
    (subj body : String) :
    ∀ (dates : List String) (acc : List PyEvent × Store) (d : String), d ∈ dates →
    hasId uid (fingerprint md5 uid subj d)
      ((dates.foldl (addEventStep md5 now uid subj body) acc)).2 = true := by
  intro dates
  induction dates with
  | nil => intro acc d h; exact absurd h (List.not_mem_nil d)
  | cons d0 ds ih =>
    intro acc d h
    rw [List.foldl_cons]
    rcases List.mem_cons.mp h with h1 | h1
    · subst h1
      exact fold_hasId_mono md5 now uid subj body _ ds _
        (step_hasId_self md5 now uid subj body d acc)
    · exact ih _ d h1

theorem step_noop (md5 : String → String) (now : String) (uid : Int)
    (subj body d : String) (acc : List PyEvent × Store) :
    hasId uid (fingerprint md5 uid subj d) acc.2 = true →
    addEventStep md5 now uid subj body acc d = acc := by
  intro hi
  unfold addEventStep
  have h : (((lookupStore uid (ensureUser uid acc.2)).getD []).any
      (fun e => e.id == fingerprint md5 uid subj d)) = true := by
    rw [lookup_ensureUser]
    unfold hasId at hi
    simpa using hi
  rw [if_pos h]
  unfold hasId at hi
  cases hl : lookupStore uid acc.2 with
  | none =>
    rw [hl] at hi
    simp at hi
  | some evs =>
    unfold ensureUser
    rw [hl]

theorem fold_noop (md5 : String → String) (now : String) (uid : Int)
    (subj body : String) :
    ∀ (dates : List String) (acc : List PyEvent × Store),
    (∀ d ∈ dates, hasId uid (fingerprint md5 uid subj d) acc.2 = true) →
    dates.foldl (addEventStep md5 now uid subj body) acc = acc := by
  intro dates
  induction dates with
  | nil => intro acc _; rfl
  | cons d ds ih =>
    intro acc h
    rw [List.foldl_cons, step_noop md5 now uid subj body d acc
      (h d (List.mem_cons_self d ds))]
    exact ih acc (fun x hx => h x (List.mem_cons_of_mem d hx))

theorem fold_added_sound (md5 : String → String) (now : String) (uid : Int)
    (subj body : String) (st : Store) :
    ∀ (dates dates0 : List String) (acc : List PyEvent × Store),
    (∀ d ∈ dates, d ∈ dates0) →
    (∀ i, hasId uid i st = true → hasId uid i acc.2 = true) →
    (∀ e ∈ acc.1, hasId uid e.id st = false ∧
        ∃ d, d ∈ dates0 ∧ e.id = fingerprint md5 uid subj d) →
    ∀ e ∈ (dates.foldl (addEventStep md5 now uid subj body) acc).1,
      hasId uid e.id st = false ∧
      ∃ d, d ∈ dates0 ∧ e.id = fingerprint md5 uid subj d := by
  intro dates
  induction dates with
  | nil => intro dates0 acc _ _ hacc e he; exact hacc e he
  | cons d ds ih =>
    intro dates0 acc hsub hmono hacc e he
    rw [List.foldl_cons] at he
    refine ih dates0 _ (fun x hx => hsub x (List.mem_cons_of_mem d hx)) ?_ ?_ e he
    · intro i hi
      exact step_hasId_mono md5 now uid subj body d acc i (hmono i hi)
    · intro e2 he2
      unfold addEventStep at he2
      by_cases h : (((lookupStore uid (ensureUser uid acc.2)).getD []).any
          (fun e3 => e3.id == fingerprint md5 uid subj d))
      · rw [if_pos h] at he2
        exact hacc e2 he2
      · rw [if_neg h] at he2
        simp only [List.mem_append, List.mem_singleton] at he2
        rcases he2 with h2 | h2
        · exact hacc e2 h2
        · subst h2
          constructor
          · cases hx : hasId uid (mkEvent md5 now uid subj body d).id st with
            | false => rfl
            | true =>
              exfalso
              have h1 := hmono _ hx
              rw [← hasId_ensureUser uid _ acc.2] at h1
              unfold hasId at h1
              simp only [mkEvent] at h1
              rw [h1] at h
              exact h rfl
          · exact ⟨d, hsub d (List.mem_cons_self d ds), by simp [mkEvent]⟩

/-- Claim C4 (confirmed).  `add_event_from_email` is idempotent: a second
call with the same `(userId, subject, body)` on the store produced by the
first call (under any clock values) adds no event and leaves the store
unchanged; and every event added by a call has an id that was not among the
user's existing event ids and equals the fingerprint of
`(userId, subject, extractedDate)` for one of the extracted dates. -/
theorem claim_C4_idempotent (md5 : String → String) (now1 now2 : String)
    (uid : Int) (subj body : String) (st : Store) :
    add_event_from_email md5 now2 uid subj body
        (add_event_from_email md5 now1 uid subj body st).2
      = ([], (add_event_from_email md5 now1 uid subj body st).2)
    ∧ ∀ e ∈ (add_event_from_email md5 now1 uid subj body st).1,
        hasId uid e.id st = false
        ∧ ∃ d, d ∈ extract_dates_from_text (subj ++ " " ++ body)
            ∧ e.id = fingerprint md5 uid subj d := by
  constructor
  · unfold add_event_from_email
    apply fold_noop
    intro d hd
    exact fold_hasId_all md5 now1 uid subj body _ ([], st) d hd
  · intro e he
    exact fold_added_sound md5 now1 uid subj body st _ _ ([], st)
      (fun x hx => hx) (fun i hi => hi)
      (fun e2 h => absurd h (List.not_mem_nil e2)) e he

set_option maxRecDepth 8192 in
theorem claim_C4_witness :
    hasId 1 (mkEvent (fun s => s) "n1" 1 "x 15.03.2025" "" "2025-03-15").id [] = false
    ∧ ∃ d, d ∈ extract_dates_from_text ("x 15.03.2025" ++ " " ++ "")
        ∧ (mkEvent (fun s => s) "n1" 1 "x 15.03.2025" "" "2025-03-15").id
            = fingerprint (fun s => s) 1 "x 15.03.2025" d :=
  (claim_C4_idempotent (fun s => s) "n1" "n2" 1 "x 15.03.2025" "" []).2
    (mkEvent (fun s => s) "n1" 1 "x 15.03.2025" "" "2025-03-15")
    (by decide)

/-! ### Reminder selection -/

theorem parse3_empty : parse3 "" = none := by decide

theorem reminderOf_eq_some (today : PyDate) (uid0 : Int) (e : PyEvent)
    (u : Int) (e2 : PyEvent) (du : Int) :
    reminderOf today uid0 e = some (u, e2, du) ↔
      uid0 = u ∧ e = e2 ∧ e.reminder_sent = false ∧
      (∃ dt, parse3 (dateStrOf e) = some dt ∧
          du = (toDays dt : Int) - (toDays today : Int)) ∧
      (du = 1 ∨ du = 3 ∨ du = 7) := by
  unfold reminderOf
  cases hs : e.reminder_sent with
  | true => simp [hs]
  | false =>
    simp only [Bool.false_eq_true, if_false]
    by_cases he : (dateStrOf e == "") = true
    · rw [if_pos he]
      have he' : dateStrOf e = "" := by simpa using he
      constructor
      · intro hcon; exact absurd hcon (by simp)
      · rintro ⟨_, _, _, ⟨dt, hdt, _⟩, _⟩
        rw [he', parse3_empty] at hdt
        exact absurd hdt (by simp)
    · rw [if_neg he]
      cases hp : parse3 (dateStrOf e) with
      | none =>
        rw [Option.none_bind]
        constructor
        · intro hcon; exact absurd hcon (by simp)
        · rintro ⟨_, _, _, ⟨dt, hdt, _⟩, _⟩
          exact absurd hdt (by simp)
      | some dt =>
        simp only [Option.some_bind]
        by_cases hc : (((toDays dt : Int) - (toDays today : Int)) = 1 ∨
            ((toDays dt : Int) - (toDays today : Int)) = 3 ∨
            ((toDays dt : Int) - (toDays today : Int)) = 7) ∧
            (0 : Int) ≤ (toDays dt : Int) - (toDays today : Int)
        · rw [if_pos hc]
          simp only [Option.some.injEq, Prod.mk.injEq]
          constructor
          · rintro ⟨h1, h2, h3⟩
            exact ⟨h1, h2, by trivial, ⟨dt, by trivial, h3.symm⟩, h3 ▸ hc.1⟩
          · rintro ⟨h1, h2, _, ⟨dt2, hdt2, hdu⟩, _⟩
            have hdd : dt = dt2 := hdt2
            exact ⟨h1, h2, by rw [hdu, hdd]⟩
        · rw [if_neg hc]
          constructor
          · intro hcon; exact absurd hcon (by simp)
          · rintro ⟨_, _, _, ⟨dt2, hdt2, hdu⟩, h5⟩
            exfalso
            have hdd : dt = dt2 := by injection hdt2
            apply hc
            rw [hdd, ← hdu]
            exact ⟨h5, by rcases h5 with h | h | h <;> rw [h] <;> norm_num⟩

theorem mem_reminder (today : PyDate) (st : Store) (u : Int) (e : PyEvent)
    (du : Int) :
    (u, e, du) ∈ get_events_for_reminder today st ↔
      ∃ p, p ∈ st ∧ ∃ e0, e0 ∈ p.2 ∧ reminderOf today p.1 e0 = some (u, e, du) := by
  unfold get_events_for_reminder
  simp [List.mem_flatMap, List.mem_filterMap]

theorem lookup_eq_of_mem (uid : Int) (evs : List PyEvent) :
    ∀ st : Store, (st.map Prod.fst).Nodup → (uid, evs) ∈ st →
    lookupStore uid st = some evs := by
  intro st
  induction st with
  | nil => intro _ h; exact absurd h (List.not_mem_nil _)
  | cons p rest ih =>
    obtain ⟨k, l⟩ := p
    intro hnd hmem
    rw [List.map_cons, List.nodup_cons] at hnd
    rcases List.mem_cons.mp hmem with h1 | h1
    · cases h1
      unfold lookupStore
      rw [if_pos (by simp)]
    · have hk : ¬ (k == uid) = true := by
        intro hb
        have hkb : k = uid := by simpa using hb
        subst hkb
        exact hnd.1 (List.mem_map.mpr ⟨(k, evs), h1, rfl⟩)
      unfold lookupStore
      rw [if_neg hk]
      exact ih hnd.2 h1

theorem mem_setStore_iff (uid : Int) (evs : List PyEvent) (k : Int)
    (l : List PyEvent) :
    ∀ st : Store, (st.map Prod.fst).Nodup →
    ((k, l) ∈ setStore uid evs st ↔
      (k = uid ∧ l = evs) ∨ (k ≠ uid ∧ (k, l) ∈ st)) := by
  intro st
  induction st with
  | nil =>
    intro _
    simp only [setStore, List.mem_singleton, List.not_mem_nil, and_false, or_false,
      Prod.mk.injEq]
  | cons p rest ih =>
    obtain ⟨k0, l0⟩ := p
    intro hnd
    rw [List.map_cons, List.nodup_cons] at hnd
    unfold setStore
    by_cases h0 : (k0 == uid) = true
    · have hk0 : k0 = uid := by simpa using h0
      subst hk0
      rw [if_pos h0]
      simp only [List.mem_cons, Prod.mk.injEq]
      constructor
      · rintro (⟨rfl, rfl⟩ | h1)
        · exact Or.inl ⟨rfl, rfl⟩
        · right
          refine ⟨?_, Or.inr h1⟩
          intro hke
          subst hke
          exact hnd.1 (List.mem_map.mpr ⟨(k, l), h1, rfl⟩)
      · rintro (⟨rfl, rfl⟩ | ⟨hne, (⟨rfl, rfl⟩ | h1)⟩)
        · exact Or.inl ⟨rfl, rfl⟩
        · exact absurd rfl hne
        · exact Or.inr h1
    · have hk0 : k0 ≠ uid := by simpa using h0
      rw [if_neg h0]
      simp only [List.mem_cons, Prod.mk.injEq]
      rw [ih hnd.2]
      constructor
      · rintro (⟨rfl, rfl⟩ | (⟨rfl, rfl⟩ | h1))
        · exact Or.inr ⟨hk0, Or.inl ⟨rfl, rfl⟩⟩
        · exact Or.inl ⟨rfl, rfl⟩
        · exact Or.inr ⟨h1.1, Or.inr h1.2⟩
      · rintro (⟨rfl, rfl⟩ | ⟨hne, (⟨rfl, rfl⟩ | h1)⟩)
        · exact Or.inr (Or.inl ⟨rfl, rfl⟩)
        · exact Or.inl ⟨rfl, rfl⟩
        · exact Or.inr (Or.inr ⟨hne, h1⟩)

theorem markFirst_sent (eid : String) :
    ∀ evs : List PyEvent, (evs.map PyEvent.id).Nodup →
    ∀ e ∈ markFirst eid evs, e.id = eid → e.reminder_sent = true := by
  intro evs
  induction evs with
  | nil => intro _ e he; exact absurd he (List.not_mem_nil e)
  | cons e0 rest ih =>
    intro hnd e he heid
    rw [List.map_cons, List.nodup_cons] at hnd
    unfold markFirst at he
    by_cases h0 : (e0.id == eid) = true
    · rw [if_pos h0] at he
      rcases List.mem_cons.mp he with h1 | h1
      · rw [h1]
      · exfalso
        have h0' : e0.id = eid := by simpa using h0
        exact hnd.1 (List.mem_map.mpr ⟨e, h1, heid.trans h0'.symm⟩)
    · rw [if_neg h0] at he
      rcases List.mem_cons.mp he with h1 | h1
      · exact absurd (by rw [← h1]; exact (beq_iff_eq ..).mpr heid) h0
      · exact ih hnd.2 e h1 heid

/-- Claim C1 (amended).  `get_events_for_reminder` returns exactly the
triples `(userId, event, daysUntil)` with `reminderSent` false, a date that
parses under the three accepted formats, and `daysUntil ∈ {1, 3, 7}` — an
event due today (`daysUntil = 0`) is NOT returned (see the counterexample);
and after `mark_reminder_sent(uid, eid)` no triple for user `uid` with event
id `eid` is returned, provided the store keys and that user's event ids are
duplicate-free. -/
theorem claim_C1_amended (today : PyDate) (st : Store) :
    (∀ (u : Int) (e : PyEvent) (du : Int),
      (u, e, du) ∈ get_events_for_reminder today st ↔
        (∃ evs, (u, evs) ∈ st ∧ e ∈ evs) ∧ e.reminder_sent = false ∧
        (∃ dt, parse3 (dateStrOf e) = some dt ∧
            du = (toDays dt : Int) - (toDays today : Int)) ∧
        (du = 1 ∨ du = 3 ∨ du = 7))
    ∧ (∀ (uid : Int) (eid : String),
        (st.map Prod.fst).Nodup →
        (((lookupStore uid st).getD []).map PyEvent.id).Nodup →
        ∀ (u : Int) (e : PyEvent) (du : Int),
          (u, e, du) ∈ get_events_for_reminder today (mark_reminder_sent uid eid st) →
          u = uid → e.id ≠ eid) := by
  constructor
  · intro u e du
    rw [mem_reminder]
    constructor
    · rintro ⟨⟨k, evs⟩, hp, e0, he0, hr⟩
      rw [reminderOf_eq_some] at hr
      obtain ⟨rfl, rfl, h3, h4, h5⟩ := hr
      exact ⟨⟨evs, hp, he0⟩, h3, h4, h5⟩
    · rintro ⟨⟨evs, hp, he⟩, h3, h4, h5⟩
      exact ⟨(u, evs), hp, e,
        he, (reminderOf_eq_some today u e u e du).mpr ⟨rfl, rfl, h3, h4, h5⟩⟩
  · intro uid eid hk hn u e du hm hu hid
    rw [hu] at hm
    unfold mark_reminder_sent at hm
    cases hl : lookupStore uid st with
    | none =>
      simp only [hl, Option.map_none', Option.getD_none] at hm
      rw [mem_reminder] at hm
      obtain ⟨⟨k, l⟩, hp, e0, he0, hr⟩ := hm
      rw [reminderOf_eq_some] at hr
      obtain ⟨hku, _, _, _, _⟩ := hr
      have hku' : k = uid := hku
      rw [hku'] at hp
      rw [lookup_eq_of_mem uid l st hk hp] at hl
      exact Option.noConfusion hl
    | some evs =>
      simp only [hl, Option.map_some', Option.getD_some] at hm
      rw [mem_reminder] at hm
      obtain ⟨⟨k, l⟩, hp, e0, he0, hr⟩ := hm
      rw [reminderOf_eq_some] at hr
      obtain ⟨hku, hee, hsent, _, _⟩ := hr
      have hku' : k = uid := hku
      rw [hku'] at hp
      rcases (mem_setStore_iff uid (markFirst eid evs) uid l st hk).mp hp with
        ⟨_, hlm⟩ | ⟨hne, _⟩
      · have he0' : e0 ∈ markFirst eid evs := by
          rw [← hlm]
          exact he0
        have hn' : (evs.map PyEvent.id).Nodup := by
          rw [hl] at hn
          simpa using hn
        have hms := markFirst_sent eid evs hn' e0 he0' (by rw [hee]; exact hid)
        rw [hms] at hsent
        exact Bool.noConfusion hsent
      · exact hne rfl

theorem claim_C1_witness :
    ({ id := "b", title := "t", date := some "2024-04-02",
       original_date := none, created_at := "c", reminder_sent := false,
       email_preview := "", days_left := none } : PyEvent).id ≠ "a" :=
  (claim_C1_amended ⟨2024, 4, 1⟩
      [(1, [{ id := "a", title := "t", date := some "2024-04-02",
              original_date := none, created_at := "c", reminder_sent := false,
              email_preview := "", days_left := none },
            { id := "b", title := "t", date := some "2024-04-02",
              original_date := none, created_at := "c", reminder_sent := false,
              email_preview := "", days_left := none }])]).2
    1 "a" (by decide) (by decide) 1
    { id := "b", title := "t", date := some "2024-04-02",
      original_date := none, created_at := "c", reminder_sent := false,
      email_preview := "", days_left := none }
    1 (by decide) rfl

/-- Claim C1, counterexample.  An event dated exactly today, with
`reminderSent` false and a parseable date (`daysUntil = 0`), is NOT returned
by `get_events_for_reminder`, contradicting the claimed
`daysUntil ∈ {0, 1, 3, 7}`. -/
theorem claim_C1_counterexample :
    get_events_for_reminder ⟨2024, 4, 1⟩
      [(1, [{ id := "x", title := "t", date := some "2024-04-01",
              original_date := none, created_at := "c", reminder_sent := false,
              email_preview := "", days_left := none }])] = []
    ∧ parse3 "2024-04-01" = some ⟨2024, 4, 1⟩
    ∧ (toDays (⟨2024, 4, 1⟩ : PyDate) : Int)
        - (toDays (⟨2024, 4, 1⟩ : PyDate) : Int) = 0 := by
  exact ⟨by decide, by decide, by decide⟩

/-! ### Upcoming events: membership and sortedness -/

theorem parse4_empty : parse4 "" = none := by decide

theorem strLtB_asymm : ∀ a b : List Char, strLtB a b = true → strLtB b a = false := by
  intro a
  induction a with
  | nil =>
    intro b h
    cases b with
    | nil => exact absurd h (by simp [strLtB])
    | cons c cs => rfl
  | cons x xs ih =>
    intro b h
    cases b with
    | nil => exact absurd h (by simp [strLtB])
    | cons y ys =>
      unfold strLtB at h ⊢
      by_cases h1 : x.toNat < y.toNat
      · rw [if_neg (by omega), if_pos h1]
      · rw [if_neg h1] at h
        by_cases h2 : y.toNat < x.toNat
        · rw [if_pos h2] at h
          exact absurd h (by simp)
        · rw [if_neg h2] at h
          rw [if_neg h2, if_neg h1]
          exact ih ys h

theorem strLtB_trans :
    ∀ a b c : List Char, strLtB a b = true → strLtB b c = true →
    strLtB a c = true := by
  intro a
  induction a with
  | nil =>
    intro b c hab hbc
    cases c with
    | nil =>
      cases b with
      | nil => exact absurd hab (by simp [strLtB])
      | cons y ys => exact absurd hbc (by simp [strLtB])
    | cons z zs => rfl
  | cons x xs ih =>
    intro b c hab hbc
    cases b with
    | nil => exact absurd hab (by simp [strLtB])
    | cons y ys =>
      cases c with
      | nil => exact absurd hbc (by simp [strLtB])
      | cons z zs =>
        unfold strLtB at hab hbc ⊢
        by_cases h1 : x.toNat < y.toNat
        · by_cases h2 : y.toNat < z.toNat
          · rw [if_pos (by omega)]
          · rw [if_neg h2] at hbc
            by_cases h3 : z.toNat < y.toNat
            · rw [if_pos h3] at hbc
              exact absurd hbc (by simp)
            · rw [if_pos (by omega)]
        · rw [if_neg h1] at hab
          by_cases h4 : y.toNat < x.toNat
          · rw [if_pos h4] at hab
            exact absurd hab (by simp)
          · rw [if_neg h4] at hab
            by_cases h2 : y.toNat < z.toNat
            · rw [if_pos (by omega)]
            · rw [if_neg h2] at hbc
              by_cases h3 : z.toNat < y.toNat
              · rw [if_pos h3] at hbc
                exact absurd hbc (by simp)
              · rw [if_neg h3] at hbc
                rw [if_neg (by omega), if_neg (by omega)]
                exact ih ys zs hab hbc

theorem pyStrLt_asymm (a b : String) : pyStrLt a b = true → pyStrLt b a = false :=
  strLtB_asymm a.data b.data

theorem pyStrLt_skip (x z w : String) :
    pyStrLt x z = true → pyStrLt w z = false → pyStrLt w x = false := by
  intro h1 h2
  cases h3 : pyStrLt w x with
  | false => rfl
  | true =>
    have ht := strLtB_trans w.data x.data z.data h3 h1
    unfold pyStrLt at h2
    rw [ht] at h2
    exact absurd h2 (by simp)

theorem mem_insertByKey (key : PyEvent → String) (x : PyEvent) :
    ∀ (l : List PyEvent) (y : PyEvent),
    y ∈ insertByKey key x l ↔ y = x ∨ y ∈ l := by
  intro l
  induction l with
  | nil => intro y; simp [insertByKey]
  | cons z zs ih =>
    intro y
    unfold insertByKey
    by_cases h : pyStrLt (key x) (key z) = true
    · rw [if_pos h]
      exact List.mem_cons
    · rw [if_neg h]
      simp only [List.mem_cons, ih]
      tauto

theorem mem_foldl_insertByKey (key : PyEvent → String) :
    ∀ (l acc : List PyEvent) (y : PyEvent),
    y ∈ l.foldl (fun acc x => insertByKey key x acc) acc ↔ y ∈ acc ∨ y ∈ l := by
  intro l
  induction l with
  | nil => intro acc y; simp
  | cons x xs ih =>
    intro acc y
    rw [List.foldl_cons, ih, mem_insertByKey]
    simp only [List.mem_cons]
    tauto

theorem mem_sortByKey (key : PyEvent → String) (l : List PyEvent) (y : PyEvent) :
    y ∈ sortByKey key l ↔ y ∈ l := by
  unfold sortByKey
  rw [mem_foldl_insertByKey]
  simp

theorem pairwise_insertByKey (key : PyEvent → String) (x : PyEvent) :
    ∀ l : List PyEvent, l.Pairwise (fun a b => pyStrLt (key b) (key a) = false) →
    (insertByKey key x l).Pairwise (fun a b => pyStrLt (key b) (key a) = false) := by
  intro l
  induction l with
  | nil => intro _; simp [insertByKey]
  | cons z zs ih =>
    intro hp
    rw [List.pairwise_cons] at hp
    unfold insertByKey
    by_cases h : pyStrLt (key x) (key z) = true
    · rw [if_pos h, List.pairwise_cons]
      constructor
      · intro y hy
        rcases List.mem_cons.mp hy with rfl | hy2
        · exact pyStrLt_asymm (key x) (key y) h
        · exact pyStrLt_skip (key x) (key z) (key y) h (hp.1 y hy2)
      · rw [List.pairwise_cons]
        exact hp
    · rw [if_neg h, List.pairwise_cons]
      constructor
      · intro y hy
        rcases (mem_insertByKey key x zs y).mp hy with rfl | hy2
        · exact (Bool.not_eq_true _).mp h
        · exact hp.1 y hy2
      · exact ih hp.2

theorem pairwise_sortByKey (key : PyEvent → String) (l : List PyEvent) :
    (sortByKey key l).Pairwise (fun a b => pyStrLt (key b) (key a) = false) := by
  unfold sortByKey
  suffices h : ∀ (l acc : List PyEvent),
      acc.Pairwise (fun a b => pyStrLt (key b) (key a) = false) →
      (l.foldl (fun acc x => insertByKey key x acc) acc).Pairwise
        (fun a b => pyStrLt (key b) (key a) = false) by
    exact h l [] List.Pairwise.nil
  intro l
  induction l with
  | nil => intro acc h; exact h
  | cons x xs ih =>
    intro acc h
    rw [List.foldl_cons]
    exact ih _ (pairwise_insertByKey key x acc h)

theorem upcoming_inner_iff (today : PyDate) (days : Nat) (e e2 : PyEvent) :
    ((if dateStrOf e == "" then none
      else (parse4 (dateStrOf e)).bind (fun dt =>
        if toDays today ≤ toDays dt ∧ toDays dt ≤ toDays today + days then
          some { e with days_left := some ((toDays dt : Int) - (toDays today : Int)) }
        else none)) = some e2) ↔
    ∃ dt, parse4 (dateStrOf e) = some dt ∧
      toDays today ≤ toDays dt ∧ toDays dt ≤ toDays today + days ∧
      e2 = { e with days_left := some ((toDays dt : Int) - (toDays today : Int)) } := by
  by_cases he : (dateStrOf e == "") = true
  · rw [if_pos he]
    have he' : dateStrOf e = "" := by simpa using he
    constructor
    · intro h
      exact absurd h (by simp)
    · rintro ⟨dt, hdt, _⟩
      rw [he', parse4_empty] at hdt
      exact absurd hdt (by simp)
  · rw [if_neg he]
    cases hp : parse4 (dateStrOf e) with
    | none =>
      rw [Option.none_bind]
      constructor
      · intro h
        exact absurd h (by simp)
      · rintro ⟨dt, hdt, _⟩
        exact absurd hdt (by simp)
    | some dt =>
      simp only [Option.some_bind]
      by_cases hc : toDays today ≤ toDays dt ∧ toDays dt ≤ toDays today + days
      · rw [if_pos hc]
        simp only [Option.some.injEq]
        constructor
        · intro h
          exact ⟨dt, rfl, hc.1, hc.2, h.symm⟩
        · rintro ⟨dt2, hdt2, _, _, h2⟩
          have hdd : dt = dt2 := hdt2
          rw [h2, hdd]
      · rw [if_neg hc]
        constructor
        · intro h
          exact absurd h (by simp)
        · rintro ⟨dt2, hdt2, ha, hb, _⟩
          have hdd : dt = dt2 := by injection hdt2
          exact absurd ⟨hdd ▸ ha, hdd ▸ hb⟩ hc

/-- Claim C5 (amended).  `get_upcoming_events` returns exactly the user's
events whose date string parses (under the four accepted formats) to a date
`D` with `today ≤ D ≤ today + withinDays` — events dated yesterday or
`withinDays + 1` days out are excluded, today and exactly `withinDays` out
included — each with `days_left` attached; but the result is sorted by the
RAW date string (lexicographically, stable), which is ascending calendar
order only within a single format family (see the counterexample). -/
theorem claim_C5_amended (today : PyDate) (uid : Int) (days : Nat) (st : Store) :
    (∀ e2 : PyEvent,
      e2 ∈ get_upcoming_events today uid days st ↔
        ∃ evs, lookupStore uid st = some evs ∧
        ∃ e, e ∈ evs ∧ ∃ dt, parse4 (dateStrOf e) = some dt ∧
          toDays today ≤ toDays dt ∧ toDays dt ≤ toDays today + days ∧
          e2 = { e with days_left := some ((toDays dt : Int) - (toDays today : Int)) })
    ∧ (get_upcoming_events today uid days st).Pairwise
        (fun a b => pyStrLt (upKey b) (upKey a) = false) := by
  constructor
  · intro e2
    unfold get_upcoming_events
    cases hl : lookupStore uid st with
    | none =>
      simp
    | some evs =>
      simp only [Option.map_some', Option.getD_some]
      rw [mem_sortByKey]
      unfold upcomingFilter
      rw [List.mem_filterMap]
      constructor
      · rintro ⟨e, he, hsome⟩
        rw [upcoming_inner_iff] at hsome
        exact ⟨evs, rfl, e, he, hsome⟩
      · rintro ⟨evs2, hevs2, e, he, hcond⟩
        have hee : evs = evs2 := by injection hevs2
        rw [← hee] at he
        exact ⟨e, he, (upcoming_inner_iff today days e e2).mpr hcond⟩
  · unfold get_upcoming_events
    cases lookupStore uid st with
    | none => simp
    | some evs =>
      simp only [Option.map_some', Option.getD_some]
      exact pairwise_sortByKey upKey _

/-- Claim C5, counterexample to "sorted ascending by date".  With the window
`today = 2024-04-01`, `withinDays = 7`, the user's events dated
`"05.04.2024"` (April 5) and `"2024-04-03"` (April 3) are both returned, but
the string sort puts April 5 first — not ascending by calendar date. -/
theorem claim_C5_counterexample :
    (get_upcoming_events ⟨2024, 4, 1⟩ 1 7
      [(1, [{ id := "a", title := "t", date := some "05.04.2024",
              original_date := none, created_at := "c", reminder_sent := false,
              email_preview := "", days_left := none },
            { id := "b", title := "t", date := some "2024-04-03",
              original_date := none, created_at := "c", reminder_sent := false,
              email_preview := "", days_left := none }])]).map PyEvent.id
      = ["a", "b"]
    ∧ parse4 "05.04.2024" = some ⟨2024, 4, 5⟩
    ∧ parse4 "2024-04-03" = some ⟨2024, 4, 3⟩
    ∧ toDays (⟨2024, 4, 3⟩ : PyDate) < toDays (⟨2024, 4, 5⟩ : PyDate) := by
  exact ⟨by decide, by decide, by decide, by decide⟩

/-! ### Retention pruning (`clear_old_events`) -/

theorem keepEvent_iff (cut : Int) (e : PyEvent) :
    keepEvent cut e = true ↔
      (dateStrOf e = "" ∨
       ∃ dt, parse3 (dateStrOf e) = some dt ∧ cut ≤ (toDays dt : Int)) := by
  unfold keepEvent
  by_cases he : (dateStrOf e == "") = true
  · rw [if_pos he]
    have he' : dateStrOf e = "" := by simpa using he
    constructor
    · intro _
      exact Or.inl he'
    · intro _
      rfl
  · rw [if_neg he]
    have he' : ¬ dateStrOf e = "" := by simpa using he
    cases hp : parse3 (dateStrOf e) with
    | none =>
      simp only [Option.map_none', Option.getD_none]
      constructor
      · intro h
        exact absurd h (by simp)
      · rintro (h | ⟨dt, hdt, _⟩)
        · exact absurd h he'
        · exact absurd hdt (by simp)
    | some dt =>
      simp only [Option.map_some', Option.getD_some, decide_eq_true_eq]
      constructor
      · intro h
        exact Or.inr ⟨dt, rfl, h⟩
      · rintro (h | ⟨dt2, hdt2, hle⟩)
        · exact absurd h he'
        · have hdd : dt = dt2 := by injection hdt2
          rw [hdd]
          exact hle

theorem lookup_cons (uid k : Int) (l : List PyEvent) (rest : Store) :
    lookupStore uid ((k, l) :: rest)
      = if k == uid then some l else lookupStore uid rest := rfl

theorem lookup_none_of_not_key (uid : Int) :
    ∀ st : Store, uid ∉ st.map Prod.fst → lookupStore uid st = none := by
  intro st
  induction st with
  | nil => intro _; rfl
  | cons p rest ih =>
    obtain ⟨k, evs⟩ := p
    intro h
    rw [List.map_cons, List.mem_cons] at h
    push_neg at h
    unfold lookupStore
    rw [if_neg (by simpa using (Ne.symm h.1))]
    exact ih h.2

theorem lookup_clear (today : PyDate) (days : Nat) :
    ∀ st : Store, (st.map Prod.fst).Nodup → ∀ uid : Int,
    lookupStore uid (clear_old_events today days st)
      = (lookupStore uid st).bind (fun evs =>
          if (evs.filter (keepEvent ((toDays today : Int) - (days : Int)))).isEmpty
          then none
          else some (evs.filter (keepEvent ((toDays today : Int) - (days : Int))))) := by
  intro st
  induction st with
  | nil => intro _ uid; rfl
  | cons p rest ih =>
    obtain ⟨k, evs⟩ := p
    intro hnd uid
    rw [List.map_cons, List.nodup_cons] at hnd
    rw [show clear_old_events today days ((k, evs) :: rest)
        = if (evs.filter (keepEvent ((toDays today : Int) - (days : Int)))).isEmpty
          then clear_old_events today days rest
          else (k, evs.filter (keepEvent ((toDays today : Int) - (days : Int))))
            :: clear_old_events today days rest from rfl]
    by_cases hke : ((evs.filter (keepEvent ((toDays today : Int) - (days : Int)))).isEmpty) = true
    · rw [if_pos hke]
      by_cases hku : (k == uid) = true
      · have hku' : k = uid := by simpa using hku
        subst hku'
        rw [ih hnd.2 k, lookup_none_of_not_key k rest hnd.1, lookup_cons,
          if_pos (by simp), Option.none_bind, Option.some_bind, if_pos hke]
      · rw [ih hnd.2 uid, lookup_cons, if_neg hku]
    · rw [if_neg hke, lookup_cons, lookup_cons]
      by_cases hku : (k == uid) = true
      · rw [if_pos hku, if_pos hku, Option.some_bind,
          if_neg (by simpa using hke)]
      · rw [if_neg hku, if_neg hku]
        exact ih hnd.2 uid

/-- Claim C10 (confirmed).  For a store with duplicate-free user keys,
`clear_old_events(days)` maps each user's list to the sublist of events
kept by the retention test and deletes the user when that sublist is empty;
and the retention test keeps exactly the events whose date string is empty
or absent, or parses under one of the three formats (`YYYY-MM-DD`,
`DD.MM.YYYY`, `DD/MM/YYYY`) to a date on or after `today - days` — an event
with a non-empty unparseable date string is removed. -/
theorem claim_C10_clear_old (today : PyDate) (days : Nat) (st : Store) :
    (st.map Prod.fst).Nodup →
    (∀ uid : Int,
      lookupStore uid (clear_old_events today days st)
        = (lookupStore uid st).bind (fun evs =>
            if (evs.filter (keepEvent ((toDays today : Int) - (days : Int)))).isEmpty
            then none
            else some (evs.filter (keepEvent ((toDays today : Int) - (days : Int))))))
    ∧ (∀ e : PyEvent, keepEvent ((toDays today : Int) - (days : Int)) e = true ↔
        (dateStrOf e = "" ∨ ∃ dt, parse3 (dateStrOf e) = some dt ∧
          (toDays today : Int) - (days : Int) ≤ (toDays dt : Int))) := by
  intro hnd
  exact ⟨lookup_clear today days st hnd, fun e =>
    keepEvent_iff ((toDays today : Int) - (days : Int)) e⟩

theorem claim_C10_witness :
    lookupStore 1 (clear_old_events ⟨2024, 4, 1⟩ 30
      [(1, [{ id := "old", title := "t", date := some "2020-01-01",
              original_date := none, created_at := "c", reminder_sent := false,
              email_preview := "", days_left := none }])])
      = (lookupStore 1
          [(1, [{ id := "old", title := "t", date := some "2020-01-01",
                  original_date := none, created_at := "c", reminder_sent := false,
                  email_preview := "", days_left := none }])]).bind (fun evs =>
          if (evs.filter (keepEvent ((toDays (⟨2024, 4, 1⟩ : PyDate) : Int) - ((30 : Nat) : Int)))).isEmpty
          then none
          else some (evs.filter (keepEvent ((toDays (⟨2024, 4, 1⟩ : PyDate) : Int) - ((30 : Nat) : Int))))) :=
  ((claim_C10_clear_old ⟨2024, 4, 1⟩ 30
      [(1, [{ id := "old", title := "t", date := some "2020-01-01",
              original_date := none, created_at := "c", reminder_sent := false,
              email_preview := "", days_left := none }])]) (by decide)).1 1

/-! ### Multipart body selection -/

theorem bodyStep_frozen (u : List Nat → String) (p : MsgPart) (body : String) :
    body ≠ "" → bodyStep u body p = body := by
  intro h
  have hb : (body == "") = false := by simpa using h
  unfold bodyStep
  by_cases h1 : (pyStartsWith "multipart/" p.ctype) = true
  · rw [if_pos h1]
  · rw [if_neg h1]
    by_cases h2 : (substrB "attachment" p.cdisp || substrB "filename" p.cdisp) = true
    · rw [if_pos h2]
    · rw [if_neg h2, if_neg (by simp [hb]), if_neg (by simp [hb])]

theorem foldl_bodyStep_frozen (u : List Nat → String) :
    ∀ (l : List MsgPart) (body : String), body ≠ "" →
    l.foldl (bodyStep u) body = body := by
  intro l
  induction l with
  | nil => intro body _; rfl
  | cons p ps ih =>
    intro body h
    rw [List.foldl_cons, bodyStep_frozen u p body h]
    exact ih body h

theorem foldl_bodyStep_empty (u : List Nat → String) :
    ∀ l : List MsgPart, (∀ q ∈ l, bodyStep u "" q = "") →
    l.foldl (bodyStep u) "" = "" := by
  intro l
  induction l with
  | nil => intro _; rfl
  | cons p ps ih =>
    intro h
    rw [List.foldl_cons, h p (List.mem_cons_self p ps)]
    exact ih (fun q hq => h q (List.mem_cons_of_mem p hq))

/-- Claim C2 (amended).  In a multipart message the body is taken from the
FIRST part, in walk order, whose body-step yields non-empty text — whether
that part is `text/plain` or `text/html` (tag-stripped) — and every later
candidate is ignored; a `text/html` part occurring before any `text/plain`
part is used even though a `text/plain` part exists later in the message
(see the counterexample). -/
theorem claim_C2_amended (u : List Nat → String) (pre post : List MsgPart)
    (p : MsgPart) :
    (∀ q ∈ pre, bodyStep u "" q = "") →
    bodyStep u "" p ≠ "" →
    get_body_multipart u (pre ++ p :: post) = bodyStep u "" p := by
  intro hpre hp
  unfold get_body_multipart
  rw [List.foldl_append, foldl_bodyStep_empty u pre hpre, List.foldl_cons]
  exact foldl_bodyStep_frozen u post (bodyStep u "" p) hp

theorem claim_C2_witness :
    get_body_multipart asciiLossy
      ([{ ctype := "multipart/mixed", cdisp := "None", payload := none },
        { ctype := "text/plain", cdisp := "attachment; filename=a.txt",
          payload := some (strBytes "Att") }]
        ++ { ctype := "text/plain", cdisp := "None",
             payload := some (strBytes "Hello") }
          :: [{ ctype := "text/html", cdisp := "None",
                payload := some (strBytes "<b>Bye</b>") }])
      = bodyStep asciiLossy ""
          { ctype := "text/plain", cdisp := "None",
            payload := some (strBytes "Hello") } :=
  claim_C2_amended asciiLossy _ _ _ (by decide) (by decide)

/-- Claim C2, counterexample.  A message whose walk order is
`[text/html, text/plain]` gets the tag-stripped html text `"Hi"` as its
body even though a `text/plain` part with non-empty content `"Plain"`
exists in the message — contradicting "a text/html part is used only when
no text/plain part exists anywhere". -/
theorem claim_C2_counterexample :
    get_body_multipart asciiLossy
      [{ ctype := "text/html", cdisp := "None",
         payload := some (strBytes "<b>Hi</b>") },
       { ctype := "text/plain", cdisp := "None",
         payload := some (strBytes "Plain") }] = "Hi"
    ∧ ("Hi" : String) ≠ "Plain" := by
  exact ⟨by decide, by decide⟩

/-! ### Unseen-mail listing -/

theorem pyLastSlice_length_le {α : Type} (limit : Nat) (l : List α)
    (h : 0 < limit) : (pyLastSlice limit l).length ≤ limit := by
  unfold pyLastSlice
  rw [if_neg (by simp; omega)]
  rw [List.length_drop]
  omega

theorem pyLastSlice_sublist {α : Type} (limit : Nat) (l : List α) :
    (pyLastSlice limit l).Sublist l := by
  unfold pyLastSlice
  by_cases h : (limit == 0) = true
  · rw [if_pos h]
  · rw [if_neg h]
    exact List.drop_sublist _ _

/-- Claim C6 (amended).  For every POSITIVE limit, `get_unread_emails`
returns at most `limit` messages, and the result respects the
most-recent-first order: it is a sublist of the reversed mailbox with the
failed fetches dropped.  (For `limit = 0` the Python slice `[-0:]` is the
whole mailbox, so the bound fails; see the counterexample.) -/
theorem claim_C6_amended {α β : Type} (fetch : α → Option β) (limit : Nat)
    (ids : List α) :
    0 < limit →
    (get_unread_emails fetch limit ids).length ≤ limit
    ∧ (get_unread_emails fetch limit ids).Sublist
        (ids.reverse.filterMap fetch) := by
  intro h
  constructor
  · unfold get_unread_emails
    calc (((pyLastSlice limit ids).reverse).filterMap fetch).length
        ≤ ((pyLastSlice limit ids).reverse).length :=
          List.length_filterMap_le _ _
      _ = (pyLastSlice limit ids).length := List.length_reverse _
      _ ≤ limit := pyLastSlice_length_le limit ids h
  · unfold get_unread_emails
    apply List.Sublist.filterMap
    exact List.Sublist.reverse (pyLastSlice_sublist limit ids)

theorem claim_C6_witness :
    (get_unread_emails (fun i : Nat => some i) 2 [1, 2, 3]).length ≤ 2
    ∧ (get_unread_emails (fun i : Nat => some i) 2 [1, 2, 3]).Sublist
        (([1, 2, 3] : List Nat).reverse.filterMap (fun i => some i)) :=
  claim_C6_amended (fun i : Nat => some i) 2 [1, 2, 3] (by decide)

/-- Claim C6, counterexample.  With `limit = 0` (a non-negative limit) the
slice `email_ids[-0:]` is the whole mailbox, so two messages are returned —
more than `limit`. -/
theorem claim_C6_counterexample :
    (get_unread_emails (fun i : Nat => some i) 0 [1, 2]).length = 2
    ∧ ¬ ((get_unread_emails (fun i : Nat => some i) 0 [1, 2]).length ≤ 0) := by
  exact ⟨by decide, by decide⟩

/-! ### Header decoding -/

theorem decodeFrags_ok (decEnc : List Nat → String → Option String)
    (u : List Nat → String) :
    ∀ frags : List HFrag,
    (∀ bs enc, HFrag.bpart bs (some enc) ∈ frags → (decEnc bs enc).isSome) →
    decodeFragsOpt decEnc u frags = some (frags.map (fragDec decEnc u)) := by
  intro frags
  induction frags with
  | nil => intro _; rfl
  | cons f rest ih =>
    intro h
    have htail : ∀ bs enc, HFrag.bpart bs (some enc) ∈ rest → (decEnc bs enc).isSome :=
      fun bs enc hm => h bs enc (List.mem_cons_of_mem f hm)
    cases f with
    | spart s =>
      rw [show decodeFragsOpt decEnc u (HFrag.spart s :: rest)
          = (decodeFragsOpt decEnc u rest).map (fun ps => s :: ps) from rfl]
      rw [ih htail, Option.map_some']
      rfl
    | bpart bs enc =>
      cases enc with
      | none =>
        rw [show decodeFragsOpt decEnc u (HFrag.bpart bs none :: rest)
            = (decodeFragsOpt decEnc u rest).map (fun ps => u bs :: ps) from rfl]
        rw [ih htail, Option.map_some']
        rfl
      | some e =>
        have hs := h bs e (List.mem_cons_self _ _)
        rw [show decodeFragsOpt decEnc u (HFrag.bpart bs (some e) :: rest)
            = (decEnc bs e).bind
                (fun s => (decodeFragsOpt decEnc u rest).map (fun ps => s :: ps))
            from rfl]
        cases hd : decEnc bs e with
        | none =>
          rw [hd] at hs
          exact absurd hs (by simp)
        | some s =>
          rw [Option.some_bind, ih htail, Option.map_some']
          simp [fragDec, hd]

theorem decodeFrags_err (decEnc : List Nat → String → Option String)
    (u : List Nat → String) :
    ∀ frags : List HFrag,
    (∃ bs enc, HFrag.bpart bs (some enc) ∈ frags ∧ decEnc bs enc = none) →
    decodeFragsOpt decEnc u frags = none := by
  intro frags
  induction frags with
  | nil =>
    rintro ⟨bs, enc, hm, _⟩
    exact absurd hm (List.not_mem_nil _)
  | cons f rest ih =>
    rintro ⟨bs, enc, hm, hd⟩
    rcases List.mem_cons.mp hm with heq | hmem
    · rw [← heq]
      rw [show decodeFragsOpt decEnc u (HFrag.bpart bs (some enc) :: rest)
          = (decEnc bs enc).bind
              (fun s => (decodeFragsOpt decEnc u rest).map (fun ps => s :: ps))
          from rfl]
      rw [hd, Option.none_bind]
    · have hrest := ih ⟨bs, enc, hmem, hd⟩
      cases f with
      | spart s =>
        rw [show decodeFragsOpt decEnc u (HFrag.spart s :: rest)
            = (decodeFragsOpt decEnc u rest).map (fun ps => s :: ps) from rfl]
        rw [hrest, Option.map_none']
      | bpart bs2 enc2 =>
        cases enc2 with
        | none =>
          rw [show decodeFragsOpt decEnc u (HFrag.bpart bs2 none :: rest)
              = (decodeFragsOpt decEnc u rest).map (fun ps => u bs2 :: ps) from rfl]
          rw [hrest, Option.map_none']
        | some e2 =>
          rw [show decodeFragsOpt decEnc u (HFrag.bpart bs2 (some e2) :: rest)
              = (decEnc bs2 e2).bind
                  (fun s => (decodeFragsOpt decEnc u rest).map (fun ps => s :: ps))
              from rfl]
          cases hd2 : decEnc bs2 e2 with
          | none => rw [Option.none_bind]
          | some s2 => rw [Option.some_bind, hrest, Option.map_none']

/-- Claim C9 (amended).  `_decode_header` joins the decoded fragments with a
single separating space and never raises: an absent or empty header gives
`""`; byte fragments with NO declared charset are decoded as lossy UTF-8;
but when decoding a fragment with a declared charset fails, the whole
header falls back to the RAW header string — not to lossy UTF-8 of the
fragments (see the counterexample) — so a malformed header still yields a
string rather than an exception. -/
theorem claim_C9_amended (decEnc : List Nat → String → Option String)
    (u : List Nat → String) (h : String) (frags : List HFrag) :
    h ≠ "" →
    ((∀ bs enc, HFrag.bpart bs (some enc) ∈ frags → (decEnc bs enc).isSome) →
      decode_header_fn decEnc u (some h) frags
        = pyJoin " " (frags.map (fragDec decEnc u)))
    ∧ ((∃ bs enc, HFrag.bpart bs (some enc) ∈ frags ∧ decEnc bs enc = none) →
      decode_header_fn decEnc u (some h) frags = h)
    ∧ decode_header_fn decEnc u none frags = "" := by
  intro hne
  have hstep : decode_header_fn decEnc u (some h) frags
      = ((decodeFragsOpt decEnc u frags).map (fun parts => pyJoin " " parts)).getD h := by
    rw [show decode_header_fn decEnc u (some h) frags
        = (if h == "" then ""
           else ((decodeFragsOpt decEnc u frags).map
             (fun parts => pyJoin " " parts)).getD h) from rfl]
    rw [if_neg (by simpa using hne)]
  refine ⟨?_, ?_, rfl⟩
  · intro hall
    rw [hstep, decodeFrags_ok decEnc u frags hall, Option.map_some', Option.getD_some]
  · intro hex
    rw [hstep, decodeFrags_err decEnc u frags hex, Option.map_none', Option.getD_none]

theorem claim_C9_witness :
    decode_header_fn (fun bs _ => some (asciiLossy bs)) asciiLossy (some "RAW")
      [HFrag.bpart (strBytes "Hi") (some "utf-8"), HFrag.spart "there",
       HFrag.bpart (strBytes "you") none]
      = pyJoin " "
          ([HFrag.bpart (strBytes "Hi") (some "utf-8"), HFrag.spart "there",
            HFrag.bpart (strBytes "you") none].map
            (fragDec (fun bs _ => some (asciiLossy bs)) asciiLossy)) :=
  (claim_C9_amended (fun bs _ => some (asciiLossy bs)) asciiLossy "RAW"
      [HFrag.bpart (strBytes "Hi") (some "utf-8"), HFrag.spart "there",
       HFrag.bpart (strBytes "you") none]
      (by decide)).1
    (fun bs enc _ => rfl)

/-- Claim C9, counterexample to "undecodable byte sequences fall back to
lossy UTF-8 decoding".  A fragment whose declared charset fails to decode
makes `_decode_header` return the raw header, which differs from the
space-join of the lossily decoded fragments. -/
theorem claim_C9_counterexample :
    decode_header_fn (fun _ _ => none) asciiLossy (some "=?x?B?zz?=")
      [HFrag.bpart [200] (some "x")] = "=?x?B?zz?="
    ∧ ("=?x?B?zz?=" : String) ≠ pyJoin " " [asciiLossy [200]] := by
  exact ⟨by decide, by decide⟩

end EmailAsistent
